import Mathlib

/-!
Verification of the gamabot session/streaming core.

Shallow embedding of the relevant parts of `bot.py` and `custom_prompt.py`:
Python strings are modelled as `List Char` (the ASCII fragment of Python's
`str.isalpha` / `str.lower` / whitespace predicates is modelled by `Char.isAlpha`,
`Char.toLower` and `Char.isWhitespace`), dictionaries holding a possibly-absent
chunk become `Option`, and the stateful counters of `MetaAIManager` become an
explicit state record threaded through step functions.
-/

/-- Python strings, modelled as lists of characters. -/
abbrev Str := List Char

/-- The constant DISCORD_MSG_CHAR_LIMIT of class BotConfig in bot.py. -/
def DISCORD_MSG_CHAR_LIMIT : Nat := 1000

/-- The constant UPDATE_INTERVAL_SECONDS of class BotConfig in bot.py (0.7 s). -/
def UPDATE_INTERVAL_SECONDS : ℚ := 7 / 10

/-- The constant AI_INACTIVITY_THRESHOLD of class BotConfig in bot.py: 15 * 60 s. -/
def AI_INACTIVITY_THRESHOLD : ℚ := 15 * 60

/-- The constant AI_MAX_ERRORS of class BotConfig in bot.py. -/
def AI_MAX_ERRORS : Nat := 3

/-- The constant AI_MAX_SORRY_RESPONSES of class BotConfig in bot.py. -/
def AI_MAX_SORRY_RESPONSES : Nat := 3

/-- The constant REQUEST_LIMIT_PER_MINUTE of class BotConfig in bot.py. -/
def REQUEST_LIMIT_PER_MINUTE : Nat := 8

/-- The constant RATE_LIMIT_COOLDOWN_SECONDS of class BotConfig in bot.py. -/
def RATE_LIMIT_COOLDOWN_SECONDS : ℚ := 15

/-- The ellipsis suffix appended by DiscordMessageHandler.truncate in bot.py. -/
def ellipsis : Str := ("...").data

/-- DiscordMessageHandler.truncate from bot.py: if the content is longer than
the Discord character limit, keep the first limit - 4 characters and append
an ellipsis; otherwise return the content unchanged. -/
def truncate (content : Str) : Str :=
  if content.length > DISCORD_MSG_CHAR_LIMIT then
    content.take (DISCORD_MSG_CHAR_LIMIT - 4) ++ ellipsis
  else content

/-- The rate-limiter state kept on MetaDiscordBot in bot.py: the deque of
request timestamps and the cooldown deadline. -/
structure RateState where
  request_timestamps : List ℚ
  cooldown_until : ℚ

/-- Outcome of the admission check in MetaDiscordBot.on_message: either the
message proceeds to processing or the handler returns after sending the
rate-limit notice. -/
inductive Admission where
  | admitted
  | rejected
deriving DecidableEq

/-- The pruning loop of MetaDiscordBot.on_message in bot.py: pop timestamps
from the front of the deque while they are older than one minute. -/
def pruned_window (now : ℚ) (w : List ℚ) : List ℚ :=
  w.dropWhile (fun t => decide (t < now - 60))

/-- The rate-limiting portion of MetaDiscordBot.on_message in bot.py: first the
cooldown check (rejecting and renewing the cooldown), then pruning of the
window, then the capacity check (rejecting and starting a cooldown), and only
then is the current timestamp appended. -/
def on_message_rate_limit (now : ℚ) (s : RateState) : RateState × Admission :=
  if now < s.cooldown_until then
    ({ s with cooldown_until := now + RATE_LIMIT_COOLDOWN_SECONDS }, Admission.rejected)
  else
    let pruned := pruned_window now s.request_timestamps
    if pruned.length ≥ REQUEST_LIMIT_PER_MINUTE then
      ({ request_timestamps := pruned,
         cooldown_until := now + RATE_LIMIT_COOLDOWN_SECONDS }, Admission.rejected)
    else
      ({ request_timestamps := pruned ++ [now],
         cooldown_until := s.cooldown_until }, Admission.admitted)

/-- MetaAIManager.check_inactivity from bot.py: the restart fires exactly when
the elapsed time since the last activity exceeds the inactivity threshold and
the session lock is not currently held. -/
def check_inactivity (now last_activity_time : ℚ) (locked : Bool) : Bool :=
  decide (now - last_activity_time > AI_INACTIVITY_THRESHOLD) && !locked

/-- One source citation carried by a chunk, as read by
DiscordMessageHandler.format_sources in bot.py. -/
structure SourceRef where
  link : Str

/-- One streamed response chunk as consumed by DiscordMessageHandler in
bot.py: the cumulative message text and the (possibly empty) source list.
The empty dict used by bot.py for an absent last chunk is modelled by
Option.none at the use sites. -/
structure Chunk where
  message : Str
  sources : List SourceRef

/-- Whether the backend generator for one prompt is drained to exhaustion or
raises somewhere mid-stream. -/
inductive StreamOutcome where
  | success
  | failure
deriving DecidableEq

/-- The mutable state of MetaAIManager in bot.py: error_count,
sorry_response_count, and whether ai_instance is currently not None. -/
structure ManagerState where
  error_count : Nat
  sorry_response_count : Nat
  alive : Bool
deriving DecidableEq

/-- Observable effects of one call into MetaAIManager: how many error chunks
were yielded and how many times restart_session was invoked. -/
structure StreamEffects where
  error_chunks : Nat
  restarts : Nat
deriving DecidableEq

/-- MetaAIManager.start_session from bot.py, with the backend abstracted by
the parameter ok (whether instance creation plus priming succeed). On success
both counters are reset and the session is live; on failure ai_instance is
left as None and the counters are untouched. Returns the success flag. -/
def start_session (ok : Bool) (s : ManagerState) : ManagerState × Bool :=
  if ok then ({ error_count := 0, sorry_response_count := 0, alive := true }, true)
  else ({ s with alive := false }, false)

/-- MetaAIManager.restart_session from bot.py: delegates to start_session. -/
def restart_session (ok : Bool) (s : ManagerState) : ManagerState × Bool :=
  start_session ok s

/-- The body of the lock-protected part of MetaAIManager.get_response_stream
in bot.py. On exhaustion of the backend generator error_count is reset to 0;
on a mid-stream exception error_count is incremented, one error chunk is
yielded, and if error_count has reached AI_MAX_ERRORS an automatic
restart_session is triggered before returning. -/
def get_response_stream_locked (restart_ok : Bool) (outcome : StreamOutcome)
    (s : ManagerState) (restarts_so_far : Nat) : ManagerState × StreamEffects :=
  match outcome with
  | StreamOutcome.success =>
      ({ s with error_count := 0 },
       { error_chunks := 0, restarts := restarts_so_far })
  | StreamOutcome.failure =>
      let s1 := { s with error_count := s.error_count + 1 }
      if s1.error_count ≥ AI_MAX_ERRORS then
        ((restart_session restart_ok s1).1,
         { error_chunks := 1, restarts := restarts_so_far + 1 })
      else (s1, { error_chunks := 1, restarts := restarts_so_far })

/-- One call to MetaAIManager.get_response_stream from bot.py: when no
ai_instance exists the call first restarts inline, and if that restart fails
it yields a single error chunk and terminates; otherwise the locked streaming
body runs with the given backend outcome. restart_ok abstracts whether any
restart_session call made during this call succeeds. -/
def get_response_stream (restart_ok : Bool) (outcome : StreamOutcome)
    (s : ManagerState) : ManagerState × StreamEffects :=
  if s.alive then get_response_stream_locked restart_ok outcome s 0
  else
    let r := restart_session restart_ok s
    if r.2 then get_response_stream_locked restart_ok outcome r.1 1
    else (r.1, { error_chunks := 1, restarts := 1 })

/-- A sequence of consecutive get_response_stream calls, accumulating the
total number of restart_session invocations. -/
def run_stream_calls (restart_ok : Bool) (outcomes : List StreamOutcome)
    (s : ManagerState) : ManagerState × Nat :=
  outcomes.foldl
    (fun acc o =>
      let r := get_response_stream restart_ok o acc.1
      (r.1, acc.2 + r.2.restarts))
    (s, 0)

/-- The manager state right after a successful start_session. -/
def fresh_manager : ManagerState :=
  { error_count := 0, sorry_response_count := 0, alive := true }

/-- Python str.strip: remove leading and trailing whitespace. -/
def strip (s : Str) : Str :=
  ((s.dropWhile Char.isWhitespace).reverse.dropWhile Char.isWhitespace).reverse

/-- Python substring containment (the in operator on str): the pattern is a
prefix of some suffix of the text. -/
def containsSub : Str → Str → Bool
  | pattern, [] => pattern.isEmpty
  | pattern, c :: rest => pattern.isPrefixOf (c :: rest) || containsSub pattern rest

/-- The constant AI_SORRY_PHRASE of class BotConfig in bot.py, kept with the
exact (mojibake) characters of the source. -/
def AI_SORRY_PHRASE : Str := ("Sorry, I can‚Äôt help you").data

/-- The one-time restarting notice edited into the message by
DiscordMessageHandler.handle_sorry_limit_restart in bot.py (the leading
character pair spells the ASCII apostrophe contraction of the source text). -/
def RESTART_NOTICE : Str :=
  ("I").data ++ [Char.ofNat 39] ++
    ("m going to restart myself really quick. Give me 10 seconds.").data

/-- The fixed placeholder used by DiscordMessageHandler.finalize_message in
bot.py when no response was received. -/
def NO_RESPONSE_PLACEHOLDER : Str := ("<No response received>").data

/-- DiscordMessageHandler.format_sources from bot.py: an empty or absent
source list formats to the empty string; otherwise the first five sources are
numbered from 1 and rendered as bracketed links under a Sources header. -/
def format_sources (sources : List SourceRef) : Str :=
  if sources.isEmpty then []
  else
    ("\n\n**Sources:**\n").data ++
      List.intercalate (("\n").data)
        ((sources.take 5).enum.map
          (fun p => (Nat.repr (p.1 + 1)).data ++ (". <").data ++ p.2.link ++ (">").data))

/-- The tail of DiscordMessageHandler.finalize_message in bot.py, reached when
the sorry limit was not hit: the final content is the fixed placeholder when
the stripped message is empty and the last chunk is the empty dict, and
otherwise the truncated message plus formatted sources; exactly one final edit
is emitted. -/
def finalize_edit (s : ManagerState) (last_chunk : Option Chunk)
    (final_message : Str) : ManagerState × List Str × Nat :=
  let final_content :=
    if final_message.isEmpty && last_chunk.isNone then NO_RESPONSE_PLACEHOLDER
    else truncate (final_message ++ format_sources ((last_chunk.map Chunk.sources).getD []))
  (s, [final_content], 0)

/-- DiscordMessageHandler.finalize_message from bot.py (with
handle_sorry_limit_restart inlined): strip the last chunk text; if it contains
AI_SORRY_PHRASE increment sorry_response_count, and when that counter has
reached AI_MAX_SORRY_RESPONSES edit the one-time restarting notice, trigger
restart_session and return with no further edits; if the phrase is absent and
the counter is positive, reset it to 0; then emit the single final edit.
Returns the manager state, the list of edits performed, and the number of
restart_session calls. -/
def finalize_message (restart_ok : Bool) (last_chunk : Option Chunk)
    (s : ManagerState) : ManagerState × List Str × Nat :=
  let final_message := strip ((last_chunk.map Chunk.message).getD [])
  if containsSub AI_SORRY_PHRASE final_message then
    let s1 := { s with sorry_response_count := s.sorry_response_count + 1 }
    if s1.sorry_response_count ≥ AI_MAX_SORRY_RESPONSES then
      ((restart_session restart_ok s1).1, [RESTART_NOTICE], 1)
    else finalize_edit s1 last_chunk final_message
  else if s.sorry_response_count > 0 then
    finalize_edit { s with sorry_response_count := 0 } last_chunk final_message
  else finalize_edit s last_chunk final_message

/-- DiscordMessageHandler.update_streamed_message from bot.py: when more than
UPDATE_INTERVAL_SECONDS have passed since the last edit and the cumulative
chunk text differs from the last displayed content, the message is edited to
the truncated text with an ellipsis appended, and the edit time and displayed
content are updated; otherwise no edit happens. The first component is the
content of the edit, if one was performed. -/
def update_streamed_message (chunk : Chunk) (now last_edit_time : ℚ)
    (edited_content : Str) : Option Str × ℚ × Str :=
  if now - last_edit_time > UPDATE_INTERVAL_SECONDS ∧ chunk.message ≠ edited_content then
    (some (truncate chunk.message ++ ellipsis), now, chunk.message)
  else (none, last_edit_time, edited_content)

/-- The lower-cased curse set built in DiscordMessageHandler.process_response
in bot.py from the curses list loaded by custom_prompt.py (membership in the
Python set is membership in this lower-cased image). -/
def curse_set_of (curses : List Str) : List Str :=
  curses.map (fun c => c.map Char.toLower)

/-- The word flush of the censorship scan in
DiscordMessageHandler.process_response in bot.py: an accumulated word that is
in the lower-cased curse set and longer than two characters keeps its first
two characters and gets one dash per remaining character; any other word is
appended unchanged. -/
def censor_word (curse_set : List Str) (w : Str) : Str :=
  if (w.map Char.toLower) ∈ curse_set ∧ w.length > 2 then
    w.take 2 ++ List.replicate (w.length - 2) '-'
  else w

/-- The character scan of DiscordMessageHandler.process_response in bot.py:
alphabetic characters accumulate into the current word; any other character
flushes the current word (censored if applicable) and is appended verbatim;
the trailing word is flushed at the end. -/
def censor_scan (curse_set : List Str) : Str → Str → Str
  | current_word, [] => censor_word curse_set current_word
  | current_word, c :: rest =>
      if c.isAlpha then censor_scan curse_set (current_word ++ [c]) rest
      else censor_word curse_set current_word ++ c :: censor_scan curse_set [] rest

/-- One pass of the censorship transform of
DiscordMessageHandler.process_response in bot.py over a prompt. -/
def censor_once (curses : List Str) (p : Str) : Str :=
  censor_scan (curse_set_of curses) [] p

/-- The censorship pre-processing of DiscordMessageHandler.process_response in
bot.py: the transform is re-run once per entry of the curses list (the loop
for curse in curses with its redundant emptiness guard). -/
def process_prompt (curses : List Str) (p : Str) : Str :=
  curses.foldl (fun acc _ => if curses.isEmpty then acc else censor_once curses acc) p

/-- The masked form of one maximal alphabetic run after censoring: a
censorable run is cut to its two-character prefix (the dashes are not
alphabetic), anything else is unchanged. -/
def mask_run (curse_set : List Str) (w : Str) : Str :=
  if (w.map Char.toLower) ∈ curse_set ∧ w.length > 2 then w.take 2 else w

/-- Relation between an input character and the character the censorship scan
leaves at the same position: either unchanged, or an alphabetic character
masked by a dash. -/
def masked_like (a b : Char) : Prop := a = b ∨ (a.isAlpha = true ∧ b = '-')

/-- Accumulator-passing computation of the maximal alphabetic runs of a
string (the word-boundary tokens of the censorship scan). -/
def alpha_runs_aux : Str → Str → List Str
  | cw, [] => if cw.isEmpty then [] else [cw]
  | cw, c :: rest =>
      if c.isAlpha then alpha_runs_aux (cw ++ [c]) rest
      else (if cw.isEmpty then [] else [cw]) ++ alpha_runs_aux [] rest

/-- The maximal alphabetic runs of a string: its words at word boundaries. -/
def alpha_runs (s : Str) : List Str := alpha_runs_aux [] s

/-- Python str.rfind of a newline over the slice up to stop: the largest index
below stop holding a newline, if any. -/
def rfind_newline (s : Str) (stop : Nat) : Option Nat :=
  let pre := s.take stop
  match pre.reverse.findIdx? (fun c => c == '\n') with
  | none => none
  | some j => some (pre.length - 1 - j)

/-- The split of the selected corpus slice in create_gama_instance of
custom_prompt.py: split at the last newline before the midpoint (at the
midpoint itself when no newline precedes it, mirroring rfind returning -1)
and strip both halves. -/
def split_context (selected_text : Str) : Str × Str :=
  let mid_point := selected_text.length / 2
  let split_pos :=
    match rfind_newline selected_text mid_point with
    | none => mid_point
    | some i => i
  (strip (selected_text.take split_pos), strip (selected_text.drop split_pos))

/-- The first priming prompt (chatlogs1) of create_gama_instance in
custom_prompt.py. Interior template whitespace is condensed; the interpolated
payload mirrors the source, which interpolates msg_two (the second half) here
even though the surrounding text announces the first half. -/
def chatlogs1 (selected_text : Str) : Str :=
  ("LOG DUMP [1/2]:\n\nThe following is the first half of raw Discord messages sent by the user to emulate. These are direct, chronological messages written by a single individual. You must ingest this data in full, preserving style, tone, slang, rhythm, phrasing, typos, emojis, formatting quirks, and voice.\n\n[START CHATLOG]\n").data
    ++ (split_context selected_text).2
    ++ ("\n[END CHATLOG]\n").data

/-- The second priming prompt (final_prompt) of create_gama_instance in
custom_prompt.py, interpolating msg_two (the second half). -/
def final_prompt (selected_text : Str) : Str :=
  ("LOG DUMP [2/2]:\n\nThis is the second half of the Discord message dataset from the same user. Continue ingesting and internalizing their writing style as previously instructed. Do not generate a response. Just read, learn, and store.\n\n[START CHATLOG]\n").data
    ++ (split_context selected_text).2
    ++ ("\n[END CHATLOG]\n").data

/-- C4 (counterexample): on an input of length 1001 the truncation returns 999
characters, not the 1000 characters (exactly the limit) that the claim states. -/
theorem truncate_overlimit_length_not_limit :
    (truncate (List.replicate 1001 'a')).length = 999 ∧
    ¬ (truncate (List.replicate 1001 'a')).length = DISCORD_MSG_CHAR_LIMIT := by
  have hc : (List.replicate 1001 'a').length > DISCORD_MSG_CHAR_LIMIT := by
    rw [List.length_replicate]
    norm_num [DISCORD_MSG_CHAR_LIMIT]
  have h : (truncate (List.replicate 1001 'a')).length = 999 := by
    simp only [truncate, if_pos hc, List.length_append, List.length_take,
      List.length_replicate, DISCORD_MSG_CHAR_LIMIT]
    norm_num [ellipsis]
  exact ⟨h, by rw [h]; norm_num [DISCORD_MSG_CHAR_LIMIT]⟩

/-- C4 (amended): for every string longer than the limit, truncation returns
exactly limit - 1 = 999 characters, whose first limit - 4 = 996 characters are
the prefix of the input and whose last 3 characters are the ellipsis; every
string within the limit is returned unchanged. -/
theorem truncate_spec_amended (s : Str) :
    (s.length > DISCORD_MSG_CHAR_LIMIT →
      (truncate s).length = DISCORD_MSG_CHAR_LIMIT - 1 ∧
      (truncate s).take (DISCORD_MSG_CHAR_LIMIT - 4) = s.take (DISCORD_MSG_CHAR_LIMIT - 4) ∧
      (truncate s).drop (DISCORD_MSG_CHAR_LIMIT - 4) = ellipsis) ∧
    (s.length ≤ DISCORD_MSG_CHAR_LIMIT → truncate s = s) := by
  constructor
  · intro h
    have h4 : DISCORD_MSG_CHAR_LIMIT - 4 ≤ s.length := by
      simp only [DISCORD_MSG_CHAR_LIMIT] at h ⊢
      omega
    have htake : (s.take (DISCORD_MSG_CHAR_LIMIT - 4)).length = DISCORD_MSG_CHAR_LIMIT - 4 := by
      rw [List.length_take]
      omega
    have htr : truncate s = s.take (DISCORD_MSG_CHAR_LIMIT - 4) ++ ellipsis := by
      simp [truncate, h]
    refine ⟨?_, ?_, ?_⟩
    · rw [htr, List.length_append, htake]
      norm_num [DISCORD_MSG_CHAR_LIMIT, ellipsis]
    · rw [htr, List.take_left' htake]
    · rw [htr, List.drop_left' htake]
  · intro h
    simp only [truncate]
    rw [if_neg (by omega)]

/-- C4 (witness): the amended statement evaluated on concrete inputs. -/
theorem truncate_spec_amended_witness :
    (truncate (List.replicate 1001 'a')).length = DISCORD_MSG_CHAR_LIMIT - 1 ∧
    truncate (List.replicate 5 'a') = List.replicate 5 'a' := by
  constructor
  · exact ((truncate_spec_amended (List.replicate 1001 'a')).1
      (by rw [List.length_replicate]; norm_num [DISCORD_MSG_CHAR_LIMIT])).1
  · exact (truncate_spec_amended (List.replicate 5 'a')).2
      (by rw [List.length_replicate]; norm_num [DISCORD_MSG_CHAR_LIMIT])

/-- Helper: in a non-decreasing window, every timestamp surviving the front
pruning loop is at least the pruning bound. -/
theorem mem_pruned_window_not_old {w : List ℚ} {now : ℚ}
    (hs : w.Pairwise (· ≤ ·)) :
    ∀ t ∈ pruned_window now w, ¬ t < now - 60 := by
  induction w with
  | nil => simp [pruned_window]
  | cons a tl ih =>
    rw [pruned_window, List.dropWhile_cons]
    by_cases ha : a < now - 60
    · simp only [decide_eq_true_eq, ha, if_true]
      exact ih hs.of_cons
    · simp only [decide_eq_true_eq, ha, if_false]
      intro t ht
      rcases List.mem_cons.mp ht with h1 | h2
      · rw [h1]; exact ha
      · have hle : a ≤ t := (List.pairwise_cons.mp hs).1 t h2
        intro hlt
        exact ha (lt_of_le_of_lt hle hlt)

/-- C3: the admission control of MetaDiscordBot.on_message checks the cooldown
before the window: during a cooldown the request is rejected, the cooldown is
renewed to now + 15 s and the window is untouched; otherwise timestamps older
than 60 s are pruned (in a non-decreasing window nothing older survives), and
if at least 8 entries remain the request is rejected, a fresh 15 s cooldown
starts at the rejection instant and the window is not appended to; only an
admitted request appends its timestamp. -/
theorem on_message_rate_limit_spec (now : ℚ) (s : RateState) :
    (now < s.cooldown_until →
      (on_message_rate_limit now s).2 = Admission.rejected ∧
      (on_message_rate_limit now s).1.cooldown_until = now + RATE_LIMIT_COOLDOWN_SECONDS ∧
      (on_message_rate_limit now s).1.request_timestamps = s.request_timestamps) ∧
    (¬ now < s.cooldown_until →
      (s.request_timestamps.Pairwise (· ≤ ·) →
        ∀ t ∈ pruned_window now s.request_timestamps, ¬ t < now - 60) ∧
      ((pruned_window now s.request_timestamps).length ≥ REQUEST_LIMIT_PER_MINUTE →
        (on_message_rate_limit now s).2 = Admission.rejected ∧
        (on_message_rate_limit now s).1.cooldown_until = now + RATE_LIMIT_COOLDOWN_SECONDS ∧
        (on_message_rate_limit now s).1.request_timestamps =
          pruned_window now s.request_timestamps) ∧
      ((pruned_window now s.request_timestamps).length < REQUEST_LIMIT_PER_MINUTE →
        (on_message_rate_limit now s).2 = Admission.admitted ∧
        (on_message_rate_limit now s).1.cooldown_until = s.cooldown_until ∧
        (on_message_rate_limit now s).1.request_timestamps =
          pruned_window now s.request_timestamps ++ [now])) := by
  constructor
  · intro h
    simp [on_message_rate_limit, h]
  · intro h
    refine ⟨fun hs => mem_pruned_window_not_old hs, ?_, ?_⟩
    · intro hfull
      simp [on_message_rate_limit, h, hfull]
    · intro hroom
      have hnot : ¬ (pruned_window now s.request_timestamps).length ≥
          REQUEST_LIMIT_PER_MINUTE := by omega
      simp [on_message_rate_limit, h, hnot]

/-- C3 (witness): with eight zero timestamps in the window and no cooldown, a
request at time 1 is rejected and starts a cooldown ending at time 16; during
that cooldown a request at time 5 is rejected again and renews the cooldown to
time 20. -/
theorem on_message_rate_limit_spec_witness :
    (on_message_rate_limit 1 ⟨List.replicate 8 0, 0⟩).2 = Admission.rejected ∧
    (on_message_rate_limit 1 ⟨List.replicate 8 0, 0⟩).1.cooldown_until = 16 ∧
    (on_message_rate_limit 5 ⟨List.replicate 8 0, 16⟩).2 = Admission.rejected ∧
    (on_message_rate_limit 5 ⟨List.replicate 8 0, 16⟩).1.cooldown_until = 20 := by
  have hpr : pruned_window 1 (List.replicate 8 (0 : ℚ)) = List.replicate 8 0 := by
    simp [pruned_window, List.dropWhile_cons, List.replicate]
  have h1 := ((on_message_rate_limit_spec 1 ⟨List.replicate 8 0, 0⟩).2
      (by norm_num)).2.1 (by rw [hpr]; simp [REQUEST_LIMIT_PER_MINUTE])
  have h2 := (on_message_rate_limit_spec 5 ⟨List.replicate 8 0, 16⟩).1 (by norm_num)
  refine ⟨h1.1, ?_, h2.1, ?_⟩
  · rw [h1.2.1]; norm_num [RATE_LIMIT_COOLDOWN_SECONDS]
  · rw [h2.2.1]; norm_num [RATE_LIMIT_COOLDOWN_SECONDS]

/-- C8: the periodic inactivity check triggers a restart if and only if the
time since the last activity exceeds the 900 s threshold and the session lock
is unheld; in particular it never triggers while the lock is held (a stream in
flight). -/
theorem check_inactivity_spec (now last_activity_time : ℚ) (locked : Bool) :
    (check_inactivity now last_activity_time locked = true ↔
      (now - last_activity_time > AI_INACTIVITY_THRESHOLD ∧ locked = false)) ∧
    (locked = true → check_inactivity now last_activity_time locked = false) := by
  cases locked <;> simp [check_inactivity]

/-- C8 (witness): with the lock free and 1000 s of silence the check fires;
with the lock held it does not, whatever the elapsed time. -/
theorem check_inactivity_spec_witness :
    check_inactivity 1000 0 false = true ∧ check_inactivity 1000 0 true = false := by
  constructor
  · exact (check_inactivity_spec 1000 0 false).1.mpr
      ⟨by norm_num [AI_INACTIVITY_THRESHOLD], rfl⟩
  · exact (check_inactivity_spec 1000 0 true).2 rfl

/-- Helper: truncation leaves a within-limit string unchanged. -/
theorem truncate_eq_of_le {s : Str} (h : s.length ≤ DISCORD_MSG_CHAR_LIMIT) :
    truncate s = s := by
  simp only [truncate]
  rw [if_neg (by omega)]

/-- Helper: truncation always produces at most the Discord character limit. -/
theorem truncate_length_le (s : Str) : (truncate s).length ≤ DISCORD_MSG_CHAR_LIMIT := by
  simp only [truncate]
  split
  · rename_i h
    rw [List.length_append, List.length_take]
    simp only [DISCORD_MSG_CHAR_LIMIT] at h ⊢
    have : ellipsis.length = 3 := rfl
    omega
  · rename_i h
    omega

/-- Helper: every edit emitted by the final-content tail of finalization is
within the Discord character limit. -/
theorem finalize_edit_length_le (s : ManagerState) (c : Option Chunk)
    (fm : Str) :
    ∀ e ∈ (finalize_edit s c fm).2.1, e.length ≤ DISCORD_MSG_CHAR_LIMIT := by
  intro e he
  simp only [finalize_edit, List.mem_singleton] at he
  subst he
  split
  · show NO_RESPONSE_PLACEHOLDER.length ≤ DISCORD_MSG_CHAR_LIMIT
    decide
  · exact truncate_length_le _

/-- C1: each mid-stream backend failure in get_response_stream yields exactly
one error chunk and increments error_count; the automatic restart is triggered
exactly when the incremented counter reaches AI_MAX_ERRORS = 3; a stream that
completes without failure resets error_count to 0; consequently three
consecutive failures from a fresh session trigger exactly one restart, and
three failures with a success between the second and the third trigger none. -/
theorem get_response_stream_error_loop (restart_ok : Bool) (s : ManagerState) :
    (s.alive = true →
      (get_response_stream restart_ok StreamOutcome.failure s).2.error_chunks = 1 ∧
      (get_response_stream restart_ok StreamOutcome.failure s).2.restarts =
        (if s.error_count + 1 ≥ AI_MAX_ERRORS then 1 else 0) ∧
      (s.error_count + 1 < AI_MAX_ERRORS →
        (get_response_stream restart_ok StreamOutcome.failure s).1.error_count =
          s.error_count + 1)) ∧
    (s.alive = true →
      (get_response_stream restart_ok StreamOutcome.success s).1.error_count = 0 ∧
      (get_response_stream restart_ok StreamOutcome.success s).2.error_chunks = 0 ∧
      (get_response_stream restart_ok StreamOutcome.success s).2.restarts = 0) ∧
    (run_stream_calls restart_ok
      [StreamOutcome.failure, StreamOutcome.failure, StreamOutcome.failure]
      fresh_manager).2 = 1 ∧
    (run_stream_calls restart_ok
      [StreamOutcome.failure, StreamOutcome.failure, StreamOutcome.success,
       StreamOutcome.failure] fresh_manager).2 = 0 := by
  refine ⟨?_, ?_, ?_, ?_⟩
  · intro ha
    by_cases hec : s.error_count + 1 ≥ AI_MAX_ERRORS
    · refine ⟨?_, ?_, ?_⟩
      · simp [get_response_stream, ha, get_response_stream_locked, hec]
      · simp [get_response_stream, ha, get_response_stream_locked, hec]
      · intro hlt
        simp only [AI_MAX_ERRORS] at hec hlt
        omega
    · refine ⟨?_, ?_, ?_⟩
      · simp [get_response_stream, ha, get_response_stream_locked, hec]
      · simp [get_response_stream, ha, get_response_stream_locked, hec]
      · intro _
        simp [get_response_stream, ha, get_response_stream_locked, hec]
  · intro ha
    simp [get_response_stream, ha, get_response_stream_locked]
  · cases restart_ok <;> decide
  · cases restart_ok <;> decide

/-- C1 (witness): from a fresh session, one failure yields one error chunk and
leaves error_count at 1 with no restart, and one success keeps the restart
count at zero. -/
theorem get_response_stream_error_loop_witness :
    (get_response_stream true StreamOutcome.failure fresh_manager).2.error_chunks = 1 ∧
    (get_response_stream true StreamOutcome.failure fresh_manager).1.error_count = 1 ∧
    (get_response_stream true StreamOutcome.success fresh_manager).2.restarts = 0 := by
  have h := get_response_stream_error_loop true fresh_manager
  exact ⟨(h.1 rfl).1, (h.1 rfl).2.2 (by decide), (h.2.1 rfl).2.2⟩

/-- C2: a finalized text containing the refusal phrase increments
sorry_response_count; when the incremented counter reaches
AI_MAX_SORRY_RESPONSES = 3 exactly one restart is triggered and the only edit
for the request is the one-time restarting notice; a finalized text without
the phrase resets a positive counter to 0 and triggers no restart. -/
theorem finalize_message_refusal_loop (restart_ok : Bool) (c : Option Chunk)
    (s : ManagerState) :
    (containsSub AI_SORRY_PHRASE (strip ((c.map Chunk.message).getD [])) = true →
      (s.sorry_response_count + 1 ≥ AI_MAX_SORRY_RESPONSES →
        (finalize_message restart_ok c s).2.2 = 1 ∧
        (finalize_message restart_ok c s).2.1 = [RESTART_NOTICE]) ∧
      (s.sorry_response_count + 1 < AI_MAX_SORRY_RESPONSES →
        (finalize_message restart_ok c s).1.sorry_response_count =
          s.sorry_response_count + 1 ∧
        (finalize_message restart_ok c s).2.2 = 0)) ∧
    (containsSub AI_SORRY_PHRASE (strip ((c.map Chunk.message).getD [])) = false →
      s.sorry_response_count > 0 →
      (finalize_message restart_ok c s).1.sorry_response_count = 0 ∧
      (finalize_message restart_ok c s).2.2 = 0) := by
  constructor
  · intro hin
    constructor
    · intro hmax
      simp [finalize_message, hin, hmax, finalize_edit]
    · intro hlt
      have hmax : ¬ s.sorry_response_count + 1 ≥ AI_MAX_SORRY_RESPONSES := by omega
      simp [finalize_message, hin, hmax, finalize_edit]
  · intro hout hpos
    simp [finalize_message, hout, hpos, finalize_edit]

/-- C2 (witness): with a refusal counter at 2, a chunk whose text is exactly
the refusal phrase triggers one restart with the notice as the only edit; with
a counter at 1, an absent chunk resets the counter to 0. -/
theorem finalize_message_refusal_loop_witness :
    (finalize_message true (some ⟨AI_SORRY_PHRASE, []⟩) ⟨0, 2, true⟩).2.2 = 1 ∧
    (finalize_message true (some ⟨AI_SORRY_PHRASE, []⟩) ⟨0, 2, true⟩).2.1 =
      [RESTART_NOTICE] ∧
    (finalize_message true none ⟨0, 1, true⟩).1.sorry_response_count = 0 := by
  have h1 := (finalize_message_refusal_loop true (some ⟨AI_SORRY_PHRASE, []⟩)
    ⟨0, 2, true⟩).1 (by decide)
  have h2 := (finalize_message_refusal_loop true none ⟨0, 1, true⟩).2
    (by decide) (by decide)
  exact ⟨(h1.1 (by decide)).1, (h1.1 (by decide)).2, h2.1⟩

/-- C7: if the stream yielded no chunks (the last chunk is the initial empty
dict), finalization emits the fixed no-response placeholder as the single
final edit. -/
theorem finalize_message_no_chunks (restart_ok : Bool) (s : ManagerState) :
    (finalize_message restart_ok none s).2.1 = [NO_RESPONSE_PLACEHOLDER] := by
  have hphr : containsSub AI_SORRY_PHRASE [] = false := by decide
  by_cases hs : s.sorry_response_count > 0
  · simp [finalize_message, hphr, hs, finalize_edit, strip]
  · simp [finalize_message, hphr, hs, finalize_edit, strip]

/-- C9: a throttled in-progress edit, when it fires, displays the truncated
cumulative text with an ellipsis appended; for cumulative text within the
character limit this is the full text plus three characters, so a preview can
reach limit + 3 characters (witnessed at length exactly limit), while every
edit emitted by finalization is bounded by the limit itself. -/
theorem update_streamed_message_preview (c : Chunk) (now last_edit_time : ℚ)
    (edited_content : Str) :
    (now - last_edit_time > UPDATE_INTERVAL_SECONDS ∧ c.message ≠ edited_content →
      (update_streamed_message c now last_edit_time edited_content).1 =
        some (truncate c.message ++ ellipsis)) ∧
    (c.message.length ≤ DISCORD_MSG_CHAR_LIMIT →
      truncate c.message ++ ellipsis = c.message ++ ellipsis ∧
      (c.message ++ ellipsis).length = c.message.length + 3) ∧
    (∀ d, (update_streamed_message c now last_edit_time edited_content).1 = some d →
      d.length ≤ DISCORD_MSG_CHAR_LIMIT + 3) ∧
    ((update_streamed_message ⟨List.replicate 1000 'a', []⟩ 1 0 []).1 =
      some (List.replicate 1000 'a' ++ ellipsis) ∧
      (List.replicate 1000 'a' ++ ellipsis).length = DISCORD_MSG_CHAR_LIMIT + 3) ∧
    (∀ restart_ok last_chunk ms e,
      e ∈ (finalize_message restart_ok last_chunk ms).2.1 →
      e.length ≤ DISCORD_MSG_CHAR_LIMIT) := by
  refine ⟨?_, ?_, ?_, ?_, ?_⟩
  · intro h
    simp [update_streamed_message, h]
  · intro h
    rw [truncate_eq_of_le h]
    refine ⟨rfl, ?_⟩
    rw [List.length_append]
    rfl
  · intro d hd
    simp only [update_streamed_message] at hd
    split at hd
    · have hd2 : d = truncate c.message ++ ellipsis := by
        exact (Option.some_inj.mp hd).symm
      rw [hd2, List.length_append]
      have h1 := truncate_length_le c.message
      have h2 : ellipsis.length = 3 := rfl
      omega
    · exact absurd hd (by simp)
  · have hlen : (List.replicate 1000 'a').length = 1000 := List.length_replicate 1000 'a'
    have hle : (List.replicate 1000 'a').length ≤ DISCORD_MSG_CHAR_LIMIT := by
      rw [hlen]; norm_num [DISCORD_MSG_CHAR_LIMIT]
    constructor
    · have hcond : (1 : ℚ) - 0 > UPDATE_INTERVAL_SECONDS ∧
          (Chunk.mk (List.replicate 1000 'a') []).message ≠ [] := by
        constructor
        · norm_num [UPDATE_INTERVAL_SECONDS]
        · intro hnil
          have hc := congrArg List.length hnil
          rw [hlen] at hc
          exact absurd hc (by norm_num)
      simp only [update_streamed_message, if_pos hcond]
      rw [truncate_eq_of_le hle]
    · rw [List.length_append, hlen]
      have he3 : ellipsis.length = 3 := rfl
      rw [he3]
      norm_num [DISCORD_MSG_CHAR_LIMIT]
  · intro restart_ok last_chunk ms e he
    simp only [finalize_message] at he
    split at he
    · split at he
      · simp only [List.mem_singleton] at he
        subst he
        show RESTART_NOTICE.length ≤ DISCORD_MSG_CHAR_LIMIT
        decide
      · exact finalize_edit_length_le _ _ _ e he
    · split at he
      · exact finalize_edit_length_le _ _ _ e he
      · exact finalize_edit_length_le _ _ _ e he

/-- C9 (witness): a firing throttled update on a two-character cumulative text
displays the text plus the three-character ellipsis. -/
theorem update_streamed_message_preview_witness :
    (update_streamed_message ⟨("hi").data, []⟩ 1 0 []).1 =
      some ((("hi").data) ++ ellipsis) := by
  have h := (update_streamed_message_preview ⟨("hi").data, []⟩ 1 0 []).1
    ⟨by norm_num [UPDATE_INTERVAL_SECONDS], by decide⟩
  rw [h, truncate_eq_of_le (by decide)]

set_option maxRecDepth 20000 in
/-- C6: evaluating the priming construction of create_gama_instance on the
slice QQ-newline-ZZZZZ, whose halves are QQ and ZZZZZ: both the first priming
prompt (LOG DUMP 1 of 2) and the second contain the second half ZZZZZ, and the
first half QQ appears in neither, contradicting the claim that each half is
sent exactly once. -/
theorem create_gama_first_half_never_sent :
    split_context (("QQ\nZZZZZ").data) = ((("QQ").data), (("ZZZZZ").data)) ∧
    containsSub (("ZZZZZ").data) (chatlogs1 (("QQ\nZZZZZ").data)) = true ∧
    containsSub (("QQ").data) (chatlogs1 (("QQ\nZZZZZ").data)) = false ∧
    containsSub (("ZZZZZ").data) (final_prompt (("QQ\nZZZZZ").data)) = true ∧
    containsSub (("QQ").data) (final_prompt (("QQ\nZZZZZ").data)) = false := by
  refine ⟨?_, ?_, ?_, ?_, ?_⟩ <;> decide

/-- Helper: unfolding the censorship scan on the empty tail. -/
theorem censor_scan_nil (cs : List Str) (cw : Str) :
    censor_scan cs cw [] = censor_word cs cw := rfl

/-- Helper: unfolding the censorship scan on one character. -/
theorem censor_scan_cons (cs : List Str) (cw : Str) (c : Char) (rest : Str) :
    censor_scan cs cw (c :: rest) =
      if c.isAlpha then censor_scan cs (cw ++ [c]) rest
      else censor_word cs cw ++ c :: censor_scan cs [] rest := rfl

/-- Helper: flushing an empty accumulated word appends nothing. -/
theorem censor_word_nil (cs : List Str) : censor_word cs [] = [] := by
  simp [censor_word]

/-- Helper: a word that is not a censorable curse is flushed unchanged. -/
theorem censor_word_of_not (cs : List Str) (w : Str)
    (h : ¬ ((w.map Char.toLower) ∈ cs ∧ w.length > 2)) :
    censor_word cs w = w := by
  rw [censor_word, if_neg h]

/-- Helper: a censorable curse word is flushed as its two-character prefix
followed by dashes. -/
theorem censor_word_of_mem (cs : List Str) (w : Str)
    (h : (w.map Char.toLower) ∈ cs ∧ w.length > 2) :
    censor_word cs w = w.take 2 ++ List.replicate (w.length - 2) '-' := by
  rw [censor_word, if_pos h]

/-- Helper: the scan walks through a block of alphabetic characters by moving
it into the accumulated word. -/
theorem censor_scan_append_alpha (cs : List Str) :
    ∀ (w cw rest : Str), (∀ c ∈ w, c.isAlpha = true) →
      censor_scan cs cw (w ++ rest) = censor_scan cs (cw ++ w) rest := by
  intro w
  induction w with
  | nil => intro cw rest _; simp
  | cons a w1 ih =>
    intro cw rest h
    have ha : a.isAlpha = true := h a (List.mem_cons_self a w1)
    rw [List.cons_append, censor_scan_cons, if_pos ha,
      ih (cw ++ [a]) rest (fun c hc => h c (List.mem_cons_of_mem a hc))]
    congr 1
    simp

/-- Helper: from an empty accumulator the scan copies a block of
non-alphabetic characters verbatim. -/
theorem censor_scan_append_nonalpha (cs : List Str) :
    ∀ (p rest : Str), (∀ c ∈ p, c.isAlpha = false) →
      censor_scan cs [] (p ++ rest) = p ++ censor_scan cs [] rest := by
  intro p
  induction p with
  | nil => intro rest _; simp
  | cons a p1 ih =>
    intro rest h
    have ha : a.isAlpha = false := h a (List.mem_cons_self a p1)
    rw [List.cons_append, censor_scan_cons, if_neg (by simp [ha]), censor_word_nil,
      List.nil_append, ih rest (fun c hc => h c (List.mem_cons_of_mem a hc))]
    rfl

/-- Helper: the two-character prefix of an alphabetic word is alphabetic. -/
theorem take_two_alpha {w : Str} (h : ∀ c ∈ w, c.isAlpha = true) :
    ∀ c ∈ w.take 2, c.isAlpha = true :=
  fun c hc => h c (List.take_subset 2 w hc)

/-- Helper: a two-character prefix is never itself censorable, its length
failing the longer-than-two test. -/
theorem take_two_not_censorable (cs : List Str) (w : Str) :
    ¬ (((w.take 2).map Char.toLower) ∈ cs ∧ (w.take 2).length > 2) := by
  intro hcontra
  have h2 := hcontra.2
  rw [List.length_take] at h2
  omega

/-- Helper: dashes are not alphabetic. -/
theorem replicate_dash_nonalpha (k : Nat) :
    ∀ c ∈ List.replicate k '-', c.isAlpha = false := by
  intro c hc
  rw [List.eq_of_mem_replicate hc]
  rfl

/-- Helper: from an empty accumulator, scanning a block of dashes followed by
nothing returns the dashes. -/
theorem censor_scan_replicate_dash (cs : List Str) (k : Nat) :
    censor_scan cs [] (List.replicate k '-') = List.replicate k '-' := by
  have h := censor_scan_append_nonalpha cs (List.replicate k '-') []
    (replicate_dash_nonalpha k)
  simpa [censor_scan_nil, censor_word_nil] using h

/-- Helper: from an empty accumulator, scanning an accumulated alphabetic word
alone flushes it. -/
theorem censor_scan_of_alpha (cs : List Str) (cw : Str)
    (hcw : ∀ c ∈ cw, c.isAlpha = true) :
    censor_scan cs [] cw = censor_word cs cw := by
  have h := censor_scan_append_alpha cs cw [] [] hcw
  simpa [censor_scan_nil] using h

/-- Helper: the censorship scan is idempotent: re-scanning its output changes
nothing, whatever alphabetic word is accumulated. -/
theorem censor_scan_idem (cs : List Str) :
    ∀ (s cw : Str), (∀ c ∈ cw, c.isAlpha = true) →
      censor_scan cs [] (censor_scan cs cw s) = censor_scan cs cw s := by
  intro s
  induction s with
  | nil =>
    intro cw hcw
    rw [censor_scan_nil]
    by_cases hc : ((cw.map Char.toLower) ∈ cs ∧ cw.length > 2)
    · rw [censor_word_of_mem cs cw hc]
      have hk : cw.length - 2 = (cw.length - 3) + 1 := by omega
      rw [hk, List.replicate_succ]
      rw [censor_scan_append_alpha cs (cw.take 2) [] _ (take_two_alpha hcw)]
      rw [List.nil_append, censor_scan_cons, if_neg (by decide)]
      rw [censor_word_of_not cs (cw.take 2) (take_two_not_censorable cs cw)]
      rw [censor_scan_replicate_dash]
    · rw [censor_word_of_not cs cw hc]
      rw [censor_scan_of_alpha cs cw hcw, censor_word_of_not cs cw hc]
  | cons c s1 ih =>
    intro cw hcw
    rw [censor_scan_cons]
    by_cases hca : c.isAlpha = true
    · rw [if_pos hca]
      refine ih (cw ++ [c]) ?_
      intro x hx
      rcases List.mem_append.mp hx with h1 | h2
      · exact hcw x h1
      · rw [List.mem_singleton] at h2
        rw [h2]
        exact hca
    · rw [if_neg hca]
      have hX : censor_scan cs [] (censor_scan cs [] s1) = censor_scan cs [] s1 :=
        ih [] (by intro x hx; cases hx)
      by_cases hc : ((cw.map Char.toLower) ∈ cs ∧ cw.length > 2)
      · rw [censor_word_of_mem cs cw hc]
        have hk : cw.length - 2 = (cw.length - 3) + 1 := by omega
        rw [hk, List.replicate_succ, List.append_assoc, List.cons_append]
        rw [censor_scan_append_alpha cs (cw.take 2) [] _ (take_two_alpha hcw)]
        rw [List.nil_append, censor_scan_cons, if_neg (by decide)]
        rw [censor_word_of_not cs (cw.take 2) (take_two_not_censorable cs cw)]
        rw [censor_scan_append_nonalpha cs (List.replicate (cw.length - 3) '-') _
          (replicate_dash_nonalpha _)]
        rw [censor_scan_cons, if_neg hca, censor_word_nil, List.nil_append, hX]
      · rw [censor_word_of_not cs cw hc]
        rw [censor_scan_append_alpha cs cw [] _ hcw, List.nil_append]
        rw [censor_scan_cons, if_neg hca, censor_word_of_not cs cw hc, hX]

/-- Helper: one censorship pass is idempotent. -/
theorem censor_once_idem (curses : List Str) (p : Str) :
    censor_once curses (censor_once curses p) = censor_once curses p :=
  censor_scan_idem (curse_set_of curses) p [] (by intro x hx; cases hx)

/-- Helper: folding the censorship pass over the remaining curse entries
changes nothing once one pass has run. -/
theorem foldl_censor_fixed (curses : List Str) (hne : curses.isEmpty = false) :
    ∀ (l : List Str) (q : Str),
      List.foldl (fun acc _ => if curses.isEmpty then acc else censor_once curses acc)
        (censor_once curses q) l = censor_once curses q := by
  intro l
  induction l with
  | nil => intro q; rfl
  | cons a l1 ih =>
    intro q
    rw [List.foldl_cons]
    have hstep :
        (if curses.isEmpty then censor_once curses q
         else censor_once curses (censor_once curses q)) = censor_once curses q := by
      rw [hne]
      simp [censor_once_idem]
    rw [hstep]
    exact ih q

/-- Helper: with a non-empty curses list the whole pre-processing loop equals
a single censorship pass. -/
theorem process_prompt_eq_censor_once (curses : List Str) (p : Str)
    (h : curses ≠ []) : process_prompt curses p = censor_once curses p := by
  obtain ⟨c0, cr, rfl⟩ := List.exists_cons_of_ne_nil h
  simp only [process_prompt, List.foldl_cons]
  have h0 : (if (c0 :: cr).isEmpty then p else censor_once (c0 :: cr) p) =
      censor_once (c0 :: cr) p := by simp
  rw [h0]
  exact foldl_censor_fixed (c0 :: cr) (by simp) cr p

/-- Helper: unfolding the run computation on the empty tail. -/
theorem alpha_runs_aux_nil (cw : Str) :
    alpha_runs_aux cw [] = if cw.isEmpty then [] else [cw] := rfl

/-- Helper: unfolding the run computation on one character. -/
theorem alpha_runs_aux_cons (cw : Str) (c : Char) (rest : Str) :
    alpha_runs_aux cw (c :: rest) =
      if c.isAlpha then alpha_runs_aux (cw ++ [c]) rest
      else (if cw.isEmpty then [] else [cw]) ++ alpha_runs_aux [] rest := rfl

/-- Helper: the run computation walks through a block of alphabetic
characters by moving it into the accumulated run. -/
theorem alpha_runs_aux_append_alpha :
    ∀ (w cw rest : Str), (∀ c ∈ w, c.isAlpha = true) →
      alpha_runs_aux cw (w ++ rest) = alpha_runs_aux (cw ++ w) rest := by
  intro w
  induction w with
  | nil => intro cw rest _; simp
  | cons a w1 ih =>
    intro cw rest h
    have ha : a.isAlpha = true := h a (List.mem_cons_self a w1)
    rw [List.cons_append, alpha_runs_aux_cons, if_pos ha,
      ih (cw ++ [a]) rest (fun c hc => h c (List.mem_cons_of_mem a hc))]
    congr 1
    simp

/-- Helper: from an empty accumulated run, a block of non-alphabetic
characters contributes no run. -/
theorem alpha_runs_aux_append_nonalpha :
    ∀ (p rest : Str), (∀ c ∈ p, c.isAlpha = false) →
      alpha_runs_aux [] (p ++ rest) = alpha_runs_aux [] rest := by
  intro p
  induction p with
  | nil => intro rest _; simp
  | cons a p1 ih =>
    intro rest h
    have ha : a.isAlpha = false := h a (List.mem_cons_self a p1)
    rw [List.cons_append, alpha_runs_aux_cons, if_neg (by simp [ha])]
    simp only [List.isEmpty_nil, if_true, List.nil_append]
    exact ih rest (fun c hc => h c (List.mem_cons_of_mem a hc))

/-- Helper: the runs of a nonempty all-alphabetic word are that word alone. -/
theorem alpha_runs_of_alpha (w : Str) (hw : ∀ c ∈ w, c.isAlpha = true)
    (hne : w ≠ []) : alpha_runs w = [w] := by
  rw [alpha_runs]
  have h := alpha_runs_aux_append_alpha w [] [] hw
  rw [List.append_nil, List.nil_append] at h
  rw [h, alpha_runs_aux_nil, if_neg (by simpa [List.isEmpty_iff] using hne)]

/-- Helper: a curse mask that does not fire leaves the run unchanged. -/
theorem mask_run_of_not (cs : List Str) (w : Str)
    (h : ¬ ((w.map Char.toLower) ∈ cs ∧ w.length > 2)) : mask_run cs w = w := by
  rw [mask_run, if_neg h]

/-- Helper: a curse mask that fires keeps the two-character prefix. -/
theorem mask_run_of_mem (cs : List Str) (w : Str)
    (h : (w.map Char.toLower) ∈ cs ∧ w.length > 2) : mask_run cs w = w.take 2 := by
  rw [mask_run, if_pos h]

/-- Helper: a block of dashes contributes no alphabetic run. -/
theorem alpha_runs_aux_replicate_dash (k : Nat) :
    alpha_runs_aux [] (List.replicate k '-') = [] := by
  have h := alpha_runs_aux_append_nonalpha (List.replicate k '-') []
    (replicate_dash_nonalpha k)
  rw [List.append_nil] at h
  rw [h]
  rfl

/-- Helper: the two-character prefix of a censorable word is nonempty. -/
theorem take_two_not_empty {cw : Str} (h : cw.length > 2) :
    ¬ ((cw.take 2).isEmpty = true) := by
  rw [List.isEmpty_iff]
  intro hnil
  have hlen : (cw.take 2).length = 0 := by rw [hnil]; rfl
  rw [List.length_take] at hlen
  omega

/-- Helper: the maximal alphabetic runs of the censorship output are exactly
the masked runs of the input. -/
theorem alpha_runs_censor_scan (cs : List Str) :
    ∀ (s cw : Str), (∀ c ∈ cw, c.isAlpha = true) →
      alpha_runs (censor_scan cs cw s) = (alpha_runs_aux cw s).map (mask_run cs) := by
  intro s
  induction s with
  | nil =>
    intro cw hcw
    rw [censor_scan_nil, alpha_runs_aux_nil]
    by_cases hemp : cw.isEmpty = true
    · have hnil : cw = [] := List.isEmpty_iff.mp hemp
      subst hnil
      rw [censor_word_nil, if_pos hemp]
      simp [alpha_runs, alpha_runs_aux_nil]
    · have hne : cw ≠ [] := by simpa [List.isEmpty_iff] using hemp
      rw [if_neg hemp]
      by_cases hc : ((cw.map Char.toLower) ∈ cs ∧ cw.length > 2)
      · rw [censor_word_of_mem cs cw hc]
        have hk : cw.length - 2 = (cw.length - 3) + 1 := by omega
        rw [hk, List.replicate_succ]
        simp only [alpha_runs]
        rw [alpha_runs_aux_append_alpha (cw.take 2) [] _ (take_two_alpha hcw)]
        rw [List.nil_append, alpha_runs_aux_cons, if_neg (by decide)]
        rw [if_neg (take_two_not_empty hc.2), alpha_runs_aux_replicate_dash]
        rw [List.map_singleton, mask_run_of_mem cs cw hc]
        rfl
      · rw [censor_word_of_not cs cw hc, alpha_runs_of_alpha cw hcw hne]
        rw [List.map_singleton, mask_run_of_not cs cw hc]
  | cons c s1 ih =>
    intro cw hcw
    rw [censor_scan_cons, alpha_runs_aux_cons]
    by_cases hca : c.isAlpha = true
    · rw [if_pos hca, if_pos hca]
      refine ih (cw ++ [c]) ?_
      intro x hx
      rcases List.mem_append.mp hx with h1 | h2
      · exact hcw x h1
      · rw [List.mem_singleton] at h2
        rw [h2]
        exact hca
    · rw [if_neg hca, if_neg hca, List.map_append]
      have hXruns : alpha_runs_aux [] (censor_scan cs [] s1) =
          (alpha_runs_aux [] s1).map (mask_run cs) := by
        have h := ih [] (by intro x hx; cases hx)
        simpa [alpha_runs] using h
      by_cases hemp : cw.isEmpty = true
      · have hnil : cw = [] := List.isEmpty_iff.mp hemp
        subst hnil
        rw [censor_word_nil, List.nil_append, if_pos hemp]
        simp only [alpha_runs, List.map_nil, List.nil_append]
        rw [alpha_runs_aux_cons, if_neg hca]
        simp only [List.isEmpty_nil, if_true, List.nil_append]
        exact hXruns
      · rw [if_neg hemp]
        by_cases hc : ((cw.map Char.toLower) ∈ cs ∧ cw.length > 2)
        · rw [censor_word_of_mem cs cw hc]
          have hk : cw.length - 2 = (cw.length - 3) + 1 := by omega
          rw [hk, List.replicate_succ, List.append_assoc, List.cons_append]
          simp only [alpha_runs]
          rw [alpha_runs_aux_append_alpha (cw.take 2) [] _ (take_two_alpha hcw)]
          rw [List.nil_append, alpha_runs_aux_cons, if_neg (by decide)]
          rw [if_neg (take_two_not_empty hc.2)]
          rw [alpha_runs_aux_append_nonalpha (List.replicate (cw.length - 3) '-') _
            (replicate_dash_nonalpha _)]
          rw [alpha_runs_aux_cons, if_neg hca]
          simp only [List.isEmpty_nil, if_true, List.nil_append]
          rw [hXruns, List.map_singleton, mask_run_of_mem cs cw hc]
        · rw [censor_word_of_not cs cw hc]
          simp only [alpha_runs]
          rw [alpha_runs_aux_append_alpha cw [] _ hcw, List.nil_append]
          rw [alpha_runs_aux_cons, if_neg hca, if_neg hemp]
          rw [hXruns, List.map_singleton, mask_run_of_not cs cw hc]

/-- Helper: an all-alphabetic block is masked-like the dash block of the same
length. -/
theorem forall₂_masked_replicate :
    ∀ (l : Str), (∀ c ∈ l, c.isAlpha = true) →
      List.Forall₂ masked_like l (List.replicate l.length '-') := by
  intro l
  induction l with
  | nil => intro _; exact List.Forall₂.nil
  | cons a l1 ih =>
    intro h
    rw [List.length_cons, List.replicate_succ]
    exact List.Forall₂.cons (Or.inr ⟨h a (List.mem_cons_self a l1), rfl⟩)
      (ih (fun c hc => h c (List.mem_cons_of_mem a hc)))

/-- Helper: a flushed word is masked-like its original, character by
character. -/
theorem forall₂_masked_censor_word (cs : List Str) (w : Str)
    (hw : ∀ c ∈ w, c.isAlpha = true) :
    List.Forall₂ masked_like w (censor_word cs w) := by
  by_cases hc : ((w.map Char.toLower) ∈ cs ∧ w.length > 2)
  · rw [censor_word_of_mem cs w hc]
    conv_lhs => rw [← List.take_append_drop 2 w]
    refine List.rel_append ?_ ?_
    · exact List.forall₂_same.mpr (fun x _ => Or.inl rfl)
    · have h2 := forall₂_masked_replicate (w.drop 2)
        (fun c hc2 => hw c (List.drop_subset 2 w hc2))
      rw [List.length_drop] at h2
      exact h2
  · rw [censor_word_of_not cs w hc]
    exact List.forall₂_same.mpr (fun x _ => Or.inl rfl)

/-- Helper: the censorship scan output is masked-like its input, character by
character. -/
theorem forall₂_masked_censor_scan (cs : List Str) :
    ∀ (s cw : Str), (∀ c ∈ cw, c.isAlpha = true) →
      List.Forall₂ masked_like (cw ++ s) (censor_scan cs cw s) := by
  intro s
  induction s with
  | nil =>
    intro cw hcw
    rw [List.append_nil, censor_scan_nil]
    exact forall₂_masked_censor_word cs cw hcw
  | cons c s1 ih =>
    intro cw hcw
    rw [censor_scan_cons]
    by_cases hca : c.isAlpha = true
    · rw [if_pos hca]
      have h := ih (cw ++ [c]) (by
        intro x hx
        rcases List.mem_append.mp hx with h1 | h2
        · exact hcw x h1
        · rw [List.mem_singleton] at h2
          rw [h2]
          exact hca)
      rw [List.append_assoc, List.singleton_append] at h
      exact h
    · rw [if_neg hca]
      have htail : List.Forall₂ masked_like s1 (censor_scan cs [] s1) := by
        have h := ih [] (by intro x hx; cases hx)
        simpa using h
      exact List.rel_append (forall₂_masked_censor_word cs cw hcw)
        (List.Forall₂.cons (Or.inl rfl) htail)

/-- Helper: an all-alphabetic word occurring at word boundaries is one of the
maximal alphabetic runs. -/
theorem mem_alpha_runs_aux_of_decomp :
    ∀ (pre cw w post : Str),
      w ≠ [] → (∀ c ∈ w, c.isAlpha = true) →
      (pre = [] → cw = []) →
      (pre ≠ [] → ∃ q c0, pre = q ++ [c0] ∧ c0.isAlpha = false) →
      (post = [] ∨ ∃ c0 p1, post = c0 :: p1 ∧ c0.isAlpha = false) →
      w ∈ alpha_runs_aux cw (pre ++ (w ++ post)) := by
  intro pre
  induction pre with
  | nil =>
    intro cw w post hw halpha hcw _ hpost
    rw [hcw rfl, List.nil_append]
    obtain ⟨a, w1, rfl⟩ := List.exists_cons_of_ne_nil hw
    rw [List.cons_append, alpha_runs_aux_cons,
      if_pos (halpha a (List.mem_cons_self a w1)), List.nil_append]
    rw [alpha_runs_aux_append_alpha w1 [a] post
      (fun c hc => halpha c (List.mem_cons_of_mem a hc))]
    rcases hpost with hnil | ⟨c0, p1, rfl, hc0⟩
    · subst hnil
      rw [alpha_runs_aux_nil, if_neg (by simp)]
      simp
    · rw [alpha_runs_aux_cons, if_neg (by simp [hc0]), if_neg (by simp)]
      simp
  | cons a pre1 ih =>
    intro cw w post hw halpha _ hlast hpost
    obtain ⟨q, c0, heq, hc0⟩ := hlast (by simp)
    rw [List.cons_append, alpha_runs_aux_cons]
    by_cases hca : a.isAlpha = true
    · rw [if_pos hca]
      cases q with
      | nil =>
        rw [List.nil_append] at heq
        have ha0 : a = c0 := (List.cons_eq_cons.mp heq).1
        rw [ha0, hc0] at hca
        cases hca
      | cons x q1 =>
        rw [List.cons_append] at heq
        have hpre1 : pre1 = q1 ++ [c0] := (List.cons_eq_cons.mp heq).2
        refine ih (cw ++ [a]) w post hw halpha ?_ ?_ hpost
        · intro hnil
          rw [hpre1] at hnil
          exact absurd hnil (by simp)
        · intro _
          exact ⟨q1, c0, hpre1, hc0⟩
    · rw [if_neg hca]
      refine List.mem_append.mpr (Or.inr ?_)
      refine ih [] w post hw halpha (fun _ => rfl) ?_ hpost
      intro hne1
      cases q with
      | nil =>
        rw [List.nil_append] at heq
        exact absurd (List.cons_eq_cons.mp heq).2 hne1
      | cons x q1 =>
        rw [List.cons_append] at heq
        exact ⟨q1, c0, (List.cons_eq_cons.mp heq).2, hc0⟩

/-- Helper: every masked run fails the censorability test. -/
theorem masked_runs_not_censorable (cs : List Str) (l : List Str) :
    ∀ v ∈ l.map (mask_run cs), ¬ ((v.map Char.toLower) ∈ cs ∧ v.length > 2) := by
  intro v hv
  obtain ⟨w, _, rfl⟩ := List.mem_map.mp hv
  by_cases hc : ((w.map Char.toLower) ∈ cs ∧ w.length > 2)
  · rw [mask_run_of_mem cs w hc]
    exact take_two_not_censorable cs w
  · rw [mask_run_of_not cs w hc]
    exact hc

/-- Helper: masking against the empty curse set changes nothing. -/
theorem map_mask_run_nil (l : List Str) : l.map (mask_run []) = l := by
  induction l with
  | nil => rfl
  | cons a l1 ih =>
    rw [List.map_cons, ih, mask_run_of_not]
    intro h
    exact absurd h.1 (List.not_mem_nil _)

/-- C5: after the censorship pre-processing, no word of the lower-cased curse
set longer than two characters occurs at word boundaries (any all-alphabetic
segment flanked by string ends or non-alphabetic characters fails the
censorability test); the maximal alphabetic runs of the output are exactly the
masked runs of the input, so runs of length at most two or outside the set are
unchanged; and the output has the same length as the prompt with every
non-alphabetic character preserved verbatim at its position. -/
theorem process_prompt_censorship (curses : List Str) (p : Str) :
    (∀ pre w post : Str,
      process_prompt curses p = pre ++ w ++ post →
      w ≠ [] → (∀ c ∈ w, c.isAlpha = true) →
      (pre = [] ∨ ∃ q c0, pre = q ++ [c0] ∧ c0.isAlpha = false) →
      (post = [] ∨ ∃ c0 p1, post = c0 :: p1 ∧ c0.isAlpha = false) →
      ¬ ((w.map Char.toLower) ∈ curse_set_of curses ∧ w.length > 2)) ∧
    alpha_runs (process_prompt curses p) =
      (alpha_runs p).map (mask_run (curse_set_of curses)) ∧
    (process_prompt curses p).length = p.length ∧
    (∀ (i : Nat) (h1 : i < p.length) (h2 : i < (process_prompt curses p).length),
      (p.get ⟨i, h1⟩).isAlpha = false →
      (process_prompt curses p).get ⟨i, h2⟩ = p.get ⟨i, h1⟩) := by
  by_cases hcur : curses = []
  · subst hcur
    refine ⟨?_, ?_, ?_, ?_⟩
    · intro pre w post _ _ _ _ _ hcontra
      have h1 := hcontra.1
      simp [curse_set_of] at h1
    · rw [show curse_set_of ([] : List Str) = [] from rfl, map_mask_run_nil]
      rfl
    · rfl
    · intro i h1 h2 _
      rfl
  · have heq : process_prompt curses p = censor_once curses p :=
      process_prompt_eq_censor_once curses p hcur
    have hmask : alpha_runs (censor_once curses p) =
        (alpha_runs p).map (mask_run (curse_set_of curses)) := by
      have h := alpha_runs_censor_scan (curse_set_of curses) p []
        (by intro x hx; cases hx)
      simpa [censor_once, alpha_runs] using h
    have hforall : List.Forall₂ masked_like p (process_prompt curses p) := by
      rw [heq]
      have h := forall₂_masked_censor_scan (curse_set_of curses) p []
        (by intro x hx; cases hx)
      simpa [censor_once] using h
    refine ⟨?_, ?_, ?_, ?_⟩
    · intro pre w post hdecomp hw halpha hpre hpost
      have hmem : w ∈ alpha_runs (process_prompt curses p) := by
        rw [hdecomp]
        simp only [alpha_runs]
        rw [List.append_assoc]
        exact mem_alpha_runs_aux_of_decomp pre [] w post hw halpha
          (fun _ => rfl) (fun hne => hpre.resolve_left hne) hpost
      rw [heq, hmask] at hmem
      exact masked_runs_not_censorable (curse_set_of curses) (alpha_runs p) w hmem
    · rw [heq]
      exact hmask
    · exact hforall.length_eq.symm
    · intro i h1 h2 hna
      have hr := (List.forall₂_iff_get.mp hforall).2 i h1 h2
      rcases hr with heq2 | ⟨hal, _⟩
      · exact heq2.symm
      · rw [hna] at hal
        cases hal

/-- C5 (witness): with the curse set containing heck, the prompt oh HECK no!
is censored to oh HE-- no!, and the theorem applied to the word-boundary
occurrence of the surviving word no discharges to non-censorability. -/
theorem process_prompt_censorship_witness :
    process_prompt [("heck").data] (("oh HECK no!").data) = ("oh HE-- no!").data ∧
    ¬ ((((("no").data).map Char.toLower) ∈ curse_set_of [("heck").data]) ∧
      (("no").data).length > 2) := by
  constructor
  · decide
  · exact (process_prompt_censorship [("heck").data] (("oh HECK no!").data)).1
      (("oh HE-- ").data) (("no").data) (("!").data)
      (by decide) (by decide) (by decide)
      (Or.inr ⟨("oh HE--").data, ' ', by decide, by decide⟩)
      (Or.inr ⟨'!', [], by decide, by decide⟩)

/-- C10: one censorship pass is idempotent, so applying the transform n times
for any n at least 1 equals applying it once, and the whole per-curse-entry
loop over a non-empty curses list equals a single pass. -/
theorem censor_iterations_collapse (curses : List Str) (p : Str) :
    (∀ n : Nat, 1 ≤ n → (censor_once curses)^[n] p = censor_once curses p) ∧
    (curses ≠ [] → process_prompt curses p = censor_once curses p) := by
  constructor
  · intro n hn
    induction n, hn using Nat.le_induction with
    | base => rw [Function.iterate_one]
    | succ n hn ih =>
      rw [Function.iterate_succ_apply', ih, censor_once_idem]
  · exact process_prompt_eq_censor_once curses p

/-- C10 (witness): two passes with curse set heck on the prompt heck no agree
with one pass, and the per-entry loop agrees with a single pass. -/
theorem censor_iterations_collapse_witness :
    (censor_once [("heck").data])^[2] (("heck no").data) =
      censor_once [("heck").data] (("heck no").data) ∧
    process_prompt [("heck").data] (("heck no").data) =
      censor_once [("heck").data] (("heck no").data) :=
  ⟨(censor_iterations_collapse [("heck").data] (("heck no").data)).1 2 (by norm_num),
   (censor_iterations_collapse [("heck").data] (("heck no").data)).2 (by simp)⟩
